import Mathlib

/-!
# Backend pod of the ML-driven gRPC load balancer: observability and request simulation

A shallow embedding of `backend/metrics/middleware.go`, `backend/metrics/metrics.go`,
`backend/server/handlers.go` and `backend/config/config.go`.

Conventions of the embedding.
* A Go `string` is its byte sequence (`GoString`); `len`, indexing and slicing act on bytes.
* A Go run-time panic (index or slice out of range, a label value that is not valid UTF-8, a
  negative counter delta) is the result `none`.
* Go `int`, `int32`, `int64` values are `Int`; 64-bit results that can leave the range are
  wrapped by `wrapInt64`.
* A finite `float64` is the rational number it denotes. In `metrics` every `float64` operation
  is the exact one followed by `roundFloat64` (IEEE 754 binary64, round to nearest, ties to
  even; overflow to an infinity is not modelled). In the handlers the standard-library
  operations whose value depends on IEEE rounding or on Unicode tables are taken as parameters
  (`StdLib`).
* The Prometheus client is modelled by what a scrape reports of it: a series is a value, a
  child lookup (`WithLabelValues`) panics on a label value that is not valid UTF-8, and a
  counter panics on a negative delta.
* Clock readings and random draws are explicit inputs.
-/

namespace Backend

/-! ## Strings -/

/-- A Go string: a sequence of bytes. -/
abbrev GoString := List UInt8

/-- The bytes of an ASCII literal. -/
def ascii (s : String) : GoString := s.toList.map (fun c => c.toNat.toUInt8)

/-- The byte `'/'`. -/
def slash : UInt8 := 47

/-- The byte `'.'`. -/
def dot : UInt8 := 46

/-- Go `s[i]`: panics unless `0 ≤ i < len(s)`. -/
def index (s : GoString) (i : Int) : Option UInt8 :=
  if 0 ≤ i ∧ i < s.length then s[i.toNat]? else none

/-- Go `s[lo:]`: panics unless `0 ≤ lo ≤ len(s)`. -/
def sliceFrom (s : GoString) (lo : Int) : Option GoString :=
  if 0 ≤ lo ∧ lo ≤ s.length then some (s.drop lo.toNat) else none

/-- Go `s[:hi]`: panics unless `0 ≤ hi ≤ len(s)`. -/
def sliceTo (s : GoString) (hi : Int) : Option GoString :=
  if 0 ≤ hi ∧ hi ≤ s.length then some (s.take hi.toNat) else none

/-- Go `%d` of an integer. -/
def fmtInt (n : Int) : GoString := ascii (toString n)

/-- Whether the byte lies in `[lo, hi]`. -/
def inRange (b : UInt8) (lo hi : Nat) : Bool := decide (lo ≤ b.toNat) && decide (b.toNat ≤ hi)

/-- The ranges the bytes after a first byte must lie in for a well-formed UTF-8 encoding, `none`
for a byte that starts no encoding (the tables `first` and `acceptRanges` of `unicode/utf8`). -/
def continuationRanges (b0 : UInt8) : Option (List (Nat × Nat)) :=
  if b0.toNat < 0x80 then some []
  else if inRange b0 0xC2 0xDF then some [(0x80, 0xBF)]
  else if b0.toNat = 0xE0 then some [(0xA0, 0xBF), (0x80, 0xBF)]
  else if b0.toNat = 0xED then some [(0x80, 0x9F), (0x80, 0xBF)]
  else if inRange b0 0xE1 0xEF then some [(0x80, 0xBF), (0x80, 0xBF)]
  else if b0.toNat = 0xF0 then some [(0x90, 0xBF), (0x80, 0xBF), (0x80, 0xBF)]
  else if inRange b0 0xF1 0xF3 then some [(0x80, 0xBF), (0x80, 0xBF), (0x80, 0xBF)]
  else if b0.toNat = 0xF4 then some [(0x80, 0x8F), (0x80, 0xBF), (0x80, 0xBF)]
  else none

/-- The scan of `utf8.ValidString`; `pending` holds the ranges of the bytes still due for the
encoding being read. -/
def validFrom : List (Nat × Nat) → GoString → Bool
  | [], [] => true
  | _ :: _, [] => false
  | r :: pending, b :: rest => inRange b r.1 r.2 && validFrom pending rest
  | [], b0 :: rest =>
    match continuationRanges b0 with
    | none => false
    | some pending => validFrom pending rest

/-- The function `utf8.ValidString`: whether the bytes are well-formed UTF-8. -/
def validUTF8 (s : GoString) : Bool := validFrom [] s

/-! ## `metrics/middleware.go`: the method-name parser -/

/-- The loop `for i := n - 1; i >= 0; i-- { if s[i] == b { last = i; break } }` started with
`last = -1`; the argument is `n`, one more than the loop variable. -/
def lastIndexLoop (s : GoString) (b : UInt8) : Nat → Option Int
  | 0 => some (-1)
  | n + 1 => do
    let c ← index s (n : Int)
    if c = b then some (n : Int) else lastIndexLoop s b n

/-- The string `"unknown"`. -/
def unknown : GoString := ascii "unknown"

/-- The function `parseFullMethod` of `metrics/middleware.go`; the result is `(service, method)`. -/
def parseFullMethod (fullMethod : GoString) : Option (GoString × GoString) :=
  if fullMethod.length = 0 then some (unknown, unknown) else do
    let c0 ← index fullMethod 0
    if c0 ≠ slash then some (unknown, unknown) else do
      let fullMethod ← sliceFrom fullMethod 1
      let lastSlash ← lastIndexLoop fullMethod slash fullMethod.length
      if lastSlash = -1 then some (unknown, fullMethod) else do
        let servicePart ← sliceTo fullMethod lastSlash
        let method ← sliceFrom fullMethod (lastSlash + 1)
        let lastDot ← lastIndexLoop servicePart dot servicePart.length
        if lastDot = -1 then some (servicePart, method) else do
          let service ← sliceFrom servicePart (lastDot + 1)
          some (service, method)

/-- The part of `s` after its last `b` (all of `s` when `b` does not occur). -/
def afterLast (b : UInt8) (s : GoString) : GoString :=
  (s.reverse.takeWhile (fun c => c != b)).reverse

/-- The part of `s` before its last `b` (empty when `b` does not occur). -/
def beforeLast (b : UInt8) (s : GoString) : GoString :=
  ((s.reverse.dropWhile (fun c => c != b)).drop 1).reverse

/-- The parser as the specification words it (§4.2), by parts of the string rather than by
index loops. -/
def parseReference (s : GoString) : GoString × GoString :=
  match s with
  | [] => (unknown, unknown)
  | c :: rest =>
    if c ≠ slash then (unknown, unknown)
    else if slash ∉ rest then (unknown, rest)
    else (afterLast dot (beforeLast slash rest), afterLast slash rest)

/-! ## Time and machine arithmetic -/

/-- Two's-complement wrap of an integer to 64 bits, as Go `int64` arithmetic does. -/
def wrapInt64 (x : Int) : Int := (x + 2 ^ 63) % 2 ^ 64 - 2 ^ 63

/-- The constant `time.Millisecond`, in nanoseconds. -/
def Millisecond : Int := 1000000

/-- The constant `time.Second`, in nanoseconds. -/
def Second : Int := 1000000000

/-- Go conversion of a `float64` to an integer type: the fraction is discarded (truncation
towards zero). Exact on the range of the integer type, the only range on which Go defines it. -/
def floatToInt (q : ℚ) : Int := Int.tdiv q.num q.den

/-! ## `float64` arithmetic -/

/-- The integer nearest to `q`, the even one of the two when `q` lies half-way. -/
def roundHalfEven (q : ℚ) : Int :=
  if q - ⌊q⌋ < 1 / 2 then ⌊q⌋
  else if 1 / 2 < q - ⌊q⌋ then ⌊q⌋ + 1
  else if ⌊q⌋ % 2 = 0 then ⌊q⌋ else ⌊q⌋ + 1

/-- The exponent of the spacing of the `float64` values around `a ≥ 0`: 52 below the binary
exponent of `a`, and that of the subnormal numbers below `2 ^ (-1022)`. -/
def quantumExp (a : ℚ) : Int := max (Int.log 2 a) (-1022) - 52

/-- The `float64` nearest to `x`, ties to even (IEEE 754 round-to-nearest-even), for a result
in the finite range. -/
def roundFloat64 (x : ℚ) : ℚ :=
  if 0 ≤ x then (roundHalfEven (x / 2 ^ quantumExp x) : ℚ) * 2 ^ quantumExp x
  else -((roundHalfEven (-x / 2 ^ quantumExp (-x)) : ℚ) * 2 ^ quantumExp (-x))

/-- The `float64` sum `a + b`. -/
def fadd (a b : ℚ) : ℚ := roundFloat64 (a + b)

/-- The `float64` quotient `a / b`, for `b` not zero. -/
def fdiv (a b : ℚ) : ℚ := roundFloat64 (a / b)

/-- The conversion `float64(n)` of an integer. -/
def floatOfInt (n : Int) : ℚ := roundFloat64 (n : ℚ)

/-- The method `Duration.Seconds()` of `time`:
`float64(d / Second) + float64(d % Second) / 1e9`. -/
def durationSeconds (d : Int) : ℚ :=
  fadd (floatOfInt (Int.tdiv d Second)) (fdiv (floatOfInt (Int.tmod d Second)) 1000000000)

/-! ## `metrics/metrics.go`: the metric families -/

/-- The four metric families. A series is a family at a label tuple; a series never written
holds no observation (histogram) or the value `0` (counter, gauge). A histogram child is
represented by the observations made on it, most recent first: its count, sum and bucket
counts are functions of that list. A counter or gauge child is the value a scrape reports:
a `float64` for the gauge and the CPU counter, each `Add` one rounded addition, and the integer
count for the request counter, to which only `Inc` is applied. -/
structure Registry where
  /-- Histogram; labels `grpc_method`, `grpc_service`, `pod`. -/
  GrpcServerHandlingSeconds : GoString × GoString × GoString → List ℚ
  /-- Counter; labels `grpc_method`, `grpc_service`, `pod`, `status`. -/
  GrpcServerRequestsTotal : GoString × GoString × GoString × GoString → ℚ
  /-- Counter; label `pod`. -/
  ContainerCpuUsageSecondsTotal : GoString → ℚ
  /-- Gauge; label `pod`. -/
  ContainerMemoryWorkingSetBytes : GoString → ℚ

/-- The registry right after `Initialize`: no series written yet. -/
def Registry.empty : Registry :=
  { GrpcServerHandlingSeconds := fun _ => []
    GrpcServerRequestsTotal := fun _ => 0
    ContainerCpuUsageSecondsTotal := fun _ => 0
    ContainerMemoryWorkingSetBytes := fun _ => 0 }

/-- Prometheus `WithLabelValues`: the lookup of a child panics when a label value is not
valid UTF-8 (the number of values is right at every call of this program). -/
def withLabelValues (values : List GoString) : Option Unit :=
  if values.all validUTF8 then some () else none

/-- The function `RecordGRPCRequest` of `metrics/metrics.go`: `Observe` on the histogram child
and `Inc` on the counter child, each after the lookup of the child; `Inc` adds one to the
integer part the client keeps of a counter. -/
def RecordGRPCRequest (podID method service status : GoString) (duration : Int)
    (reg : Registry) : Option Registry := do
  withLabelValues [method, service, podID]
  let reg1 : Registry :=
    { reg with
      GrpcServerHandlingSeconds := fun l =>
        if l = (method, service, podID)
        then durationSeconds duration :: reg.GrpcServerHandlingSeconds l
        else reg.GrpcServerHandlingSeconds l }
  withLabelValues [method, service, podID, status]
  some
    { reg1 with
      GrpcServerRequestsTotal := fun l =>
        if l = (method, service, podID, status)
        then reg1.GrpcServerRequestsTotal l + 1
        else reg1.GrpcServerRequestsTotal l }

/-- What the code can observe of the process: the metric registry and the clock
(nanoseconds since the Unix epoch). -/
structure World where
  registry : Registry
  clock : Int

/-- The caller's context: the number of nanoseconds after which it is cancelled, if ever. -/
structure Context where
  cancelAfter : Option Int

/-- A Go `error` value that is not nil: one that carries a gRPC status, or any other. -/
inductive GoError where
  | status (code : Nat) (message : GoString)
  | plain (message : GoString)
  deriving DecidableEq

/-- The code `codes.OK`. -/
def codeOK : Nat := 0

/-- The code `codes.Unknown`. -/
def codeUnknown : Nat := 2

/-- The code `codes.NotFound`. -/
def codeNotFound : Nat := 5

/-- The function `status.Code` on an error that is not nil: the code of the status the error carries,
`codes.Unknown` when it carries none. -/
def statusCodeOf : GoError → Nat
  | GoError.status code _ => code
  | GoError.plain _ => codeUnknown

/-- The method `codes.Code.String`. -/
def codeString (c : Nat) : GoString :=
  match c with
  | 0 => ascii "OK"
  | 1 => ascii "Canceled"
  | 2 => ascii "Unknown"
  | 3 => ascii "InvalidArgument"
  | 4 => ascii "DeadlineExceeded"
  | 5 => ascii "NotFound"
  | 6 => ascii "AlreadyExists"
  | 7 => ascii "PermissionDenied"
  | 8 => ascii "ResourceExhausted"
  | 9 => ascii "FailedPrecondition"
  | 10 => ascii "Aborted"
  | 11 => ascii "OutOfRange"
  | 12 => ascii "Unimplemented"
  | 13 => ascii "Internal"
  | 14 => ascii "Unavailable"
  | 15 => ascii "DataLoss"
  | 16 => ascii "Unauthenticated"
  | n => ascii "Code(" ++ fmtInt n ++ ascii ")"

/-- The type `grpc.UnaryServerInfo`, of which the interceptor reads `FullMethod`. -/
structure UnaryServerInfo where
  FullMethod : GoString

/-- A `grpc.UnaryHandler`: it may change the world, returns a response and an error (`none` is
the nil error), or panics (`none` for the whole call). -/
abbrev UnaryHandler (Req Resp : Type) :=
  Context → Req → World → Option ((Resp × Option GoError) × World)

/-- The status code the interceptor derives from the handler's error. -/
def deriveStatus (err : Option GoError) : Nat :=
  match err with
  | none => codeOK
  | some e => statusCodeOf e

/-- The function returned by `UnaryServerInterceptor` of `metrics/middleware.go`. -/
def UnaryServerInterceptor {Req Resp : Type} (podID : GoString) (ctx : Context) (req : Req)
    (info : UnaryServerInfo) (handler : UnaryHandler Req Resp) (w : World) :
    Option ((Resp × Option GoError) × World) := do
  let start := w.clock
  let (out, w1) ← handler ctx req w
  let duration := w1.clock - start
  let statusCode := deriveStatus out.2
  let (service, method) ← parseFullMethod info.FullMethod
  let registry ← RecordGRPCRequest podID method service (codeString statusCode) duration
    w1.registry
  some (out, { w1 with registry := registry })

/-! ## `config/config.go` -/

/-- The type `Config` of `config/config.go`. -/
structure Config where
  PodID : GoString
  GRPCPort : GoString
  MetricsPort : GoString
  CPUFactor : ℚ
  LatencyBase : Int

/-! ## `server/handlers.go`: the request simulator -/

/-- The standard-library operations the handlers call whose values are fixed by IEEE rounding,
Unicode tables or formatting rules; the handlers are stated for any such functions. -/
structure StdLib where
  /-- The function `strings.ToUpper`. -/
  toUpper : GoString → GoString
  /-- The loop body `math.Sin(result) + math.Cos(float64(i))`. -/
  sinPlusCos : ℚ → Int → ℚ
  /-- The `float64` product. -/
  fmul : ℚ → ℚ → ℚ
  /-- The verb `%.2f` of `fmt`. -/
  fmtFloat2 : ℚ → GoString
  /-- The method `time.Duration.String`, the verb `%v` on a duration. -/
  durationString : Int → GoString

/-- The function `time.Sleep`: a duration that is not positive returns at once. -/
def sleep (d : Int) (w : World) : World := { w with clock := w.clock + max d 0 }

/-- The message `api.ProcessDataRequest`. -/
structure ProcessDataRequest where
  Data : GoString
  Complexity : Int

/-- The message `api.ProcessDataResponse`. -/
structure ProcessDataResponse where
  Result : GoString
  ProcessingTimeMs : Int
  PodId : GoString
  deriving DecidableEq

/-- The message `api.GetResourceRequest`. -/
structure GetResourceRequest where
  ResourceId : GoString
  SimulateSlowOperation : Bool

/-- The message `api.GetResourceResponse`. -/
structure GetResourceResponse where
  ResourceData : GoString
  Metadata : GoString
  PodId : GoString
  deriving DecidableEq

/-- The enumeration `api.HealthCheckResponse_ServingStatus`. -/
inductive ServingStatus where
  | UNKNOWN
  | SERVING
  | NOT_SERVING
  deriving DecidableEq

/-- The message `api.HealthCheckResponse`. -/
structure HealthCheckResponse where
  Status : ServingStatus
  PodId : GoString
  deriving DecidableEq

/-- The line `iterations := complexity * 1000 * int(s.config.CPUFactor)` of `simulateCPUWork`. -/
def iterationCount (cfg : Config) (complexity : Int) : Int :=
  wrapInt64 (wrapInt64 (complexity * 1000) * floatToInt cfg.CPUFactor)

/-- The loop `for i := 0; i < iterations; i++ { result = sin(result) + cos(i) }` from
`result = 1.0`. -/
def cpuLoop (lib : StdLib) (iterations : Int) : ℚ :=
  (List.range iterations.toNat).foldl (fun result i => lib.sinPlusCos result (i : Int)) 1

/-- The body of the string loop of `simulateCPUWork`:
`processed = Sprintf("%s-%d-%.2f", processed, i, result)`, cut to 1000 bytes when longer. -/
def appendSegment (lib : StdLib) (result : ℚ) (processed : GoString) (i : Nat) :
    Option GoString :=
  let processed := processed ++ ascii "-" ++ fmtInt (i : Int) ++ ascii "-" ++ lib.fmtFloat2 result
  if processed.length > 1000 then sliceTo processed 1000 else some processed

/-- The string `processed` of `simulateCPUWork` when its loop `for i := 0; i < complexity; i++`
ends. -/
def buildProcessed (lib : StdLib) (data : GoString) (complexity : Int) (result : ℚ) :
    Option GoString :=
  (List.range complexity.toNat).foldlM (appendSegment lib result) (lib.toUpper data)

/-- The method `simulateCPUWork` of `server/handlers.go`. -/
def simulateCPUWork (lib : StdLib) (cfg : Config) (data : GoString) (complexity : Int) :
    Option GoString := do
  let iterations := iterationCount cfg complexity
  let result := cpuLoop lib iterations
  let processed ← buildProcessed lib data complexity result
  some (ascii "Processed[" ++ processed ++ ascii "] by pod " ++ cfg.PodID
    ++ ascii " (complexity=" ++ fmtInt complexity ++ ascii ", iterations=" ++ fmtInt iterations
    ++ ascii ", result=" ++ lib.fmtFloat2 result ++ ascii ")")

/-- The two `if` statements at the head of `ProcessData`. -/
def clampComplexity (complexity : Int) : Int :=
  let complexity := if complexity ≤ 0 then 1 else complexity
  if complexity > 10 then 10 else complexity

/-- The `totalDelay` of `ProcessData` for a complexity already clamped and the draw `jitter`
of `rand.Intn(50)`. -/
def processDataDelay (lib : StdLib) (cfg : Config) (complexity jitter : Int) : Int :=
  let baseDelay := wrapInt64 (cfg.LatencyBase * Millisecond)
  let variableDelay := wrapInt64 (jitter * Millisecond)
  let cpuDelay :=
    wrapInt64 (floatToInt (lib.fmul ((complexity * 10 : Int) : ℚ) cfg.CPUFactor) * Millisecond)
  wrapInt64 (baseDelay + variableDelay + cpuDelay)

/-- The method `BackendServer.ProcessData` of `server/handlers.go`; `jitter` is the draw of
`rand.Intn(50)`. -/
def ProcessData (lib : StdLib) (cfg : Config) (jitter : Int) :
    UnaryHandler ProcessDataRequest ProcessDataResponse := fun _ctx req w => do
  let start := w.clock
  let complexity := clampComplexity req.Complexity
  let result ← simulateCPUWork lib cfg req.Data complexity
  let totalDelay := processDataDelay lib cfg complexity jitter
  let w1 := sleep totalDelay w
  let processingTime := w1.clock - start
  some (({ Result := result
           ProcessingTimeMs := Int.tdiv processingTime Millisecond
           PodId := cfg.PodID }, none), w1)

/-- The duration `baseDelay + jitter` that `GetResource` sleeps; `jitter` is the draw of
`rand.Intn(30)`. -/
def getResourceDelay (cfg : Config) (simulateSlowOperation : Bool) (jitter : Int) : Int :=
  let baseDelay := wrapInt64 (Int.tdiv cfg.LatencyBase 2 * Millisecond)
  let baseDelay := if simulateSlowOperation then wrapInt64 (baseDelay * 3) else baseDelay
  let jitter := wrapInt64 (jitter * Millisecond)
  wrapInt64 (baseDelay + jitter)

/-- The method `BackendServer.GetResource` of `server/handlers.go`; `jitter` is the draw of
`rand.Intn(30)`. -/
def GetResource (lib : StdLib) (cfg : Config) (jitter : Int) :
    UnaryHandler GetResourceRequest GetResourceResponse := fun _ctx req w =>
  let start := w.clock
  let w1 := sleep (getResourceDelay cfg req.SimulateSlowOperation jitter) w
  let resourceData :=
    ascii "Resource-" ++ req.ResourceId ++ ascii "-Data-" ++ fmtInt (w1.clock / Second)
  let metadata :=
    ascii "Processed by " ++ cfg.PodID ++ ascii " in " ++ lib.durationString (w1.clock - start)
  some (({ ResourceData := resourceData, Metadata := metadata, PodId := cfg.PodID }, none), w1)

/-- The method `BackendServer.HealthCheck` of `server/handlers.go`. -/
def HealthCheck (cfg : Config) : UnaryHandler Unit HealthCheckResponse := fun _ctx _req w =>
  some (({ Status := ServingStatus.SERVING, PodId := cfg.PodID }, none), w)


/-! ## Concrete inputs -/

/-- A stub handler that answers `NotFound` after 12 ms. -/
def notFoundAfter12ms : UnaryHandler Unit Unit := fun _ _ w =>
  some (((), some (GoError.status codeNotFound (ascii "missing"))), sleep (12 * Millisecond) w)

/-- A world right after `Initialize`, the clock at the epoch. -/
def world0 : World := { registry := Registry.empty, clock := 0 }

/-- A pod with `LATENCY_BASE=20` and the default `CPU_FACTOR=1.0`. -/
def cfgBase20 : Config :=
  { PodID := ascii "p1", GRPCPort := ascii "9090", MetricsPort := ascii "8080",
    CPUFactor := 1, LatencyBase := 20 }

/-- A pod with `CPU_FACTOR=0.5`. -/
def cfgHalf : Config :=
  { PodID := ascii "p1", GRPCPort := ascii "9090", MetricsPort := ascii "8080",
    CPUFactor := 1 / 2, LatencyBase := 50 }

/-- A pod with `CPU_FACTOR=1.5`. -/
def cfgOneAndHalf : Config :=
  { PodID := ascii "p1", GRPCPort := ascii "9090", MetricsPort := ascii "8080",
    CPUFactor := 3 / 2, LatencyBase := 50 }

end Backend

namespace Backend

/-! ## Indexing, slicing and the last occurrence of a byte -/

theorem index_of_lt (s : GoString) (n : Nat) (h : n < s.length) :
    index s (n : Int) = some (s.get ⟨n, h⟩) := by
  unfold index
  have h1 : (0 : Int) ≤ (n : Int) ∧ (n : Int) < (s.length : Int) := ⟨by omega, by omega⟩
  rw [if_pos h1]
  simp [List.getElem?_eq_getElem h]

theorem lastIndexLoop_append (s t : GoString) (b : UInt8) :
    ∀ n, n ≤ s.length → lastIndexLoop (s ++ t) b n = lastIndexLoop s b n := by
  intro n
  induction n with
  | zero => intro _; rfl
  | succ n ih =>
    intro h
    have h1 : n < s.length := by omega
    have h2 : n < (s ++ t).length := by simp; omega
    simp only [lastIndexLoop]
    rw [index_of_lt s n h1, index_of_lt (s ++ t) n h2, ih (by omega)]
    have : (s ++ t).get ⟨n, h2⟩ = s.get ⟨n, h1⟩ := by
      simp [List.getElem_append_left h1]
    rw [this]

theorem lastIndexLoop_snoc (s : GoString) (c b : UInt8) :
    lastIndexLoop (s ++ [c]) b (s ++ [c]).length
      = if c = b then some (s.length : Int) else lastIndexLoop s b s.length := by
  have hl : (s ++ [c]).length = s.length + 1 := by simp
  rw [hl]
  simp only [lastIndexLoop]
  have h2 : s.length < (s ++ [c]).length := by simp
  rw [index_of_lt (s ++ [c]) s.length h2, lastIndexLoop_append s [c] b s.length (le_refl _)]
  have : (s ++ [c]).get ⟨s.length, h2⟩ = c := by simp
  rw [this]
  rfl

theorem afterLast_snoc (b c : UInt8) (s : GoString) :
    afterLast b (s ++ [c]) = if c = b then [] else afterLast b s ++ [c] := by
  unfold afterLast
  by_cases h : c = b
  · simp [h, List.takeWhile_cons]
  · simp [h, List.takeWhile_cons]

theorem beforeLast_snoc (b c : UInt8) (s : GoString) :
    beforeLast b (s ++ [c]) = if c = b then s else beforeLast b s := by
  unfold beforeLast
  by_cases h : c = b
  · simp [h, List.dropWhile_cons]
  · simp [h, List.dropWhile_cons]

theorem afterLast_of_not_mem (b : UInt8) (s : GoString) (h : b ∉ s) : afterLast b s = s := by
  unfold afterLast
  have : s.reverse.takeWhile (fun c => c != b) = s.reverse := by
    rw [List.takeWhile_eq_self_iff]
    intro x hx
    have hx2 : x ∈ s := List.mem_reverse.mp hx
    simp only [bne_iff_ne, ne_eq]
    intro hxb
    exact h (hxb ▸ hx2)
  rw [this, List.reverse_reverse]

theorem lastIndexLoop_spec (b : UInt8) (s : GoString) :
    lastIndexLoop s b s.length
      = some (if b ∈ s then ((beforeLast b s).length : Int) else -1) := by
  induction s using List.reverseRecOn with
  | nil => rfl
  | append_singleton s c ih =>
    rw [lastIndexLoop_snoc, beforeLast_snoc]
    by_cases h : c = b
    · simp [h]
    · rw [if_neg h, if_neg h, ih]
      have : b ∈ s ++ [c] ↔ b ∈ s := by
        simp only [List.mem_append, List.mem_singleton]
        constructor
        · rintro (h1 | h1)
          · exact h1
          · exact absurd h1.symm h
        · exact Or.inl
      simp only [this]

theorem split_at_last (b : UInt8) (s : GoString) (h : b ∈ s) :
    s = beforeLast b s ++ b :: afterLast b s := by
  induction s using List.reverseRecOn with
  | nil => simp at h
  | append_singleton s c ih =>
    rw [beforeLast_snoc, afterLast_snoc]
    by_cases hc : c = b
    · simp [hc]
    · rw [if_neg hc, if_neg hc]
      have hs : b ∈ s := by
        simp only [List.mem_append, List.mem_singleton] at h
        rcases h with h1 | h1
        · exact h1
        · exact absurd h1.symm hc
      have := ih hs
      calc s ++ [c] = (beforeLast b s ++ b :: afterLast b s) ++ [c] := by rw [← this]
        _ = beforeLast b s ++ b :: (afterLast b s ++ [c]) := by simp

theorem take_before_last (b : UInt8) (s : GoString) (h : b ∈ s) :
    s.take (beforeLast b s).length = beforeLast b s := by
  have hs := split_at_last b s h
  generalize beforeLast b s = p at hs ⊢
  generalize afterLast b s = q at hs
  subst hs
  simp

theorem drop_after_last (b : UInt8) (s : GoString) (h : b ∈ s) :
    s.drop ((beforeLast b s).length + 1) = afterLast b s := by
  have hs := split_at_last b s h
  generalize beforeLast b s = p at hs ⊢
  generalize afterLast b s = q at hs ⊢
  subst hs
  rw [List.drop_append_eq_append_drop]
  simp

theorem beforeLast_length_lt (b : UInt8) (s : GoString) (h : b ∈ s) :
    (beforeLast b s).length < s.length := by
  have := congrArg List.length (split_at_last b s h)
  simp at this
  omega

/-- The part of a string from a position on, for a position inside the string. -/
theorem sliceFrom_of_le (s : GoString) (n : Nat) (h : n ≤ s.length) :
    sliceFrom s (n : Int) = some (s.drop n) := by
  unfold sliceFrom
  have h1 : (0 : Int) ≤ (n : Int) ∧ (n : Int) ≤ (s.length : Int) := ⟨by omega, by omega⟩
  rw [if_pos h1]
  simp

theorem sliceTo_of_le (s : GoString) (n : Nat) (h : n ≤ s.length) :
    sliceTo s (n : Int) = some (s.take n) := by
  unfold sliceTo
  have h1 : (0 : Int) ≤ (n : Int) ∧ (n : Int) ≤ (s.length : Int) := ⟨by omega, by omega⟩
  rw [if_pos h1]
  simp

/-- The service part and the method cut out around the last occurrence of a byte. -/
theorem lastIndex_parts (b : UInt8) (s : GoString) (h : b ∈ s) :
    lastIndexLoop s b s.length = some ((beforeLast b s).length : Int)
    ∧ sliceTo s ((beforeLast b s).length : Int) = some (beforeLast b s)
    ∧ sliceFrom s ((beforeLast b s).length + 1 : Int) = some (afterLast b s) := by
  have hlt := beforeLast_length_lt b s h
  refine ⟨?_, ?_, ?_⟩
  · rw [lastIndexLoop_spec, if_pos h]
  · rw [sliceTo_of_le s _ (by omega), take_before_last b s h]
  · have := sliceFrom_of_le s ((beforeLast b s).length + 1) (by omega)
    rw [drop_after_last b s h] at this
    exact_mod_cast this

theorem parseFullMethod_eq_reference (s : GoString) :
    parseFullMethod s = some (parseReference s) := by
  cases s with
  | nil => rfl
  | cons c rest =>
    unfold parseFullMethod parseReference
    have hlen : (c :: rest).length ≠ 0 := by simp
    rw [if_neg hlen]
    have h0 : index (c :: rest) 0 = some c := by
      have := index_of_lt (c :: rest) 0 (by simp)
      simpa using this
    have h1 : sliceFrom (c :: rest) 1 = some rest := by
      have := sliceFrom_of_le (c :: rest) 1 (by simp)
      simpa using this
    simp only [h0, Option.bind_eq_bind, Option.some_bind]
    by_cases hc : c = slash
    · subst hc
      simp only [ne_eq, not_true_eq_false, if_false, h1, Option.some_bind]
      by_cases hs : slash ∈ rest
      · obtain ⟨e1, e2, e3⟩ := lastIndex_parts slash rest hs
        have hne : ((beforeLast slash rest).length : Int) ≠ -1 := by omega
        simp only [e1, Option.some_bind, if_neg hne, e2, e3, hs, not_true_eq_false, if_false]
        by_cases hd : dot ∈ beforeLast slash rest
        · obtain ⟨d1, d2, d3⟩ := lastIndex_parts dot (beforeLast slash rest) hd
          have hne2 : ((beforeLast dot (beforeLast slash rest)).length : Int) ≠ -1 := by omega
          simp only [d1, Option.some_bind, if_neg hne2, d3]
        · rw [lastIndexLoop_spec, if_neg hd]
          simp [afterLast_of_not_mem dot _ hd]
      · rw [lastIndexLoop_spec, if_neg hs]
        simp [hs]
    · simp [hc]

theorem afterLast_append_cons (b : UInt8) (x t : GoString) (h : b ∉ t) :
    afterLast b (x ++ b :: t) = t := by
  unfold afterLast
  have hp : ∀ a ∈ t.reverse, (fun c => c != b) a = true := by
    intro a ha
    have ha2 : a ∈ t := List.mem_reverse.mp ha
    simp only [bne_iff_ne, ne_eq]
    intro hab
    exact h (hab ▸ ha2)
  rw [List.reverse_append, List.reverse_cons, List.append_assoc,
    List.takeWhile_append_of_pos hp]
  simp [List.takeWhile_cons]

theorem beforeLast_append_cons (b : UInt8) (x t : GoString) (h : b ∉ t) :
    beforeLast b (x ++ b :: t) = x := by
  unfold beforeLast
  have hp : ∀ a ∈ t.reverse, (fun c => c != b) a = true := by
    intro a ha
    have ha2 : a ∈ t := List.mem_reverse.mp ha
    simp only [bne_iff_ne, ne_eq]
    intro hab
    exact h (hab ▸ ha2)
  rw [List.reverse_append, List.reverse_cons, List.append_assoc,
    List.dropWhile_append_of_pos hp]
  simp [List.dropWhile_cons]

/-! ## The method-name parser -/

/-- C1: for every input string `parseFullMethod` returns (no index or slice leaves its
bounds) and its result is the one the specification describes by parts: `("unknown",
"unknown")` for an empty string or one not starting with `/`; otherwise, with `rest` the
string without its first byte, `("unknown", rest)` when `rest` has no `/`, else the method is
what follows the last `/` of `rest` and the service is what follows the last `.` of what
precedes that `/` (all of it when it has no `.`). The four examples of the specification are
instances. -/
theorem parseFullMethod_total_and_reference :
    (∀ s : GoString, parseFullMethod s = some (parseReference s))
    ∧ parseFullMethod (ascii "/loadbalancer.BackendService/ProcessData")
        = some (ascii "BackendService", ascii "ProcessData")
    ∧ parseFullMethod (ascii "") = some (ascii "unknown", ascii "unknown")
    ∧ parseFullMethod (ascii "/Bare") = some (ascii "unknown", ascii "Bare")
    ∧ parseFullMethod (ascii "/a.b.c.S/M") = some (ascii "S", ascii "M") :=
  ⟨parseFullMethod_eq_reference, by decide, by decide, by decide, by decide⟩

/-- C2: round trip on well-formed full-method strings: for every package string, every
service name without `.` and `/` and every method name without `/`, parsing
`"/" ++ pkg ++ "." ++ svc ++ "/" ++ m` gives `(svc, m)`. -/
theorem parseFullMethod_roundtrip (pkg svc m : GoString)
    (hdot : dot ∉ svc) (_hsvc : slash ∉ svc) (hm : slash ∉ m) :
    parseFullMethod (ascii "/" ++ pkg ++ ascii "." ++ svc ++ ascii "/" ++ m) = some (svc, m) := by
  have hshape : ascii "/" ++ pkg ++ ascii "." ++ svc ++ ascii "/" ++ m
      = slash :: ((pkg ++ dot :: svc) ++ slash :: m) := by
    have e1 : ascii "/" = [slash] := by decide
    have e2 : ascii "." = [dot] := by decide
    rw [e1, e2]
    simp
  rw [hshape, parseFullMethod_eq_reference]
  have hin : slash ∈ (pkg ++ dot :: svc) ++ slash :: m := by simp
  simp only [parseReference, ne_eq, not_true_eq_false, if_false, hin]
  rw [afterLast_append_cons slash _ m hm, beforeLast_append_cons slash _ m hm,
    afterLast_append_cons dot pkg svc hdot]

/-- The round trip at the full-method string of `ProcessData`. -/
theorem parseFullMethod_roundtrip_witness :
    parseFullMethod (ascii "/" ++ ascii "loadbalancer" ++ ascii "." ++ ascii "BackendService"
      ++ ascii "/" ++ ascii "ProcessData") = some (ascii "BackendService", ascii "ProcessData") :=
  parseFullMethod_roundtrip (ascii "loadbalancer") (ascii "BackendService")
    (ascii "ProcessData") (by decide) (by decide) (by decide)

/-! ## Label values -/

theorem validUTF8_of_ascii (s : GoString) (h : ∀ b ∈ s, b.toNat < 128) : validUTF8 s = true := by
  unfold validUTF8
  induction s with
  | nil => rfl
  | cons b s ih =>
    have hb : b.toNat < 0x80 := h b (List.mem_cons_self _ _)
    have hc : continuationRanges b = some [] := by
      unfold continuationRanges
      rw [if_pos hb]
    rw [validFrom, hc]
    exact ih (fun x hx => h x (List.mem_cons_of_mem _ hx))

theorem digitChar_ascii (d : Nat) : (Nat.digitChar d).toNat < 128 := by
  by_cases h : d < 16
  · interval_cases d <;> decide
  · have e : Nat.digitChar d = '*' := by
      unfold Nat.digitChar
      simp only [show d ≠ 0 by omega, show d ≠ 1 by omega, show d ≠ 2 by omega,
        show d ≠ 3 by omega, show d ≠ 4 by omega, show d ≠ 5 by omega, show d ≠ 6 by omega,
        show d ≠ 7 by omega, show d ≠ 8 by omega, show d ≠ 9 by omega, show d ≠ 10 by omega,
        show d ≠ 11 by omega, show d ≠ 12 by omega, show d ≠ 13 by omega, show d ≠ 14 by omega,
        show d ≠ 15 by omega, if_false]
    rw [e]
    decide

theorem toDigitsCore_ascii (fuel : Nat) : ∀ (n : Nat) (acc : List Char),
    (∀ c ∈ acc, c.toNat < 128) → ∀ c ∈ Nat.toDigitsCore 10 fuel n acc, c.toNat < 128 := by
  induction fuel with
  | zero => intro n acc h; simpa [Nat.toDigitsCore] using h
  | succ f ih =>
    intro n acc h
    simp only [Nat.toDigitsCore]
    have hacc : ∀ c ∈ Nat.digitChar (n % 10) :: acc, c.toNat < 128 := by
      intro c hc
      rcases List.mem_cons.mp hc with rfl | hc
      · exact digitChar_ascii _
      · exact h c hc
    split_ifs
    · exact hacc
    · exact ih _ _ hacc

theorem ascii_byte_lt (c : Char) (h : c.toNat < 128) : (c.toNat.toUInt8).toNat < 128 := by
  have : (c.toNat.toUInt8).toNat = c.toNat % 256 := rfl
  omega

theorem fmtInt_natCast_ascii (n : Nat) : ∀ b ∈ fmtInt (n : Int), b.toNat < 128 := by
  intro b hb
  have e : toString ((n : Nat) : Int) = Nat.repr n := rfl
  simp only [fmtInt, ascii, e, List.mem_map] at hb
  obtain ⟨c, hc, rfl⟩ := hb
  apply ascii_byte_lt
  have hc2 : c ∈ Nat.toDigitsCore 10 (n + 1) n [] := hc
  exact toDigitsCore_ascii _ _ _ (by simp) c hc2

/-- The name of every status code is ASCII, so it is a label value the registry accepts. -/
theorem codeString_valid (c : Nat) : validUTF8 (codeString c) = true := by
  by_cases h : c < 17
  · interval_cases c <;> decide
  · obtain ⟨n, rfl⟩ : ∃ n, c = n + 17 := ⟨c - 17, by omega⟩
    have e : codeString (n + 17) = ascii "Code(" ++ fmtInt ((n + 17 : Nat) : Int) ++ ascii ")" :=
      rfl
    rw [e]
    apply validUTF8_of_ascii
    intro b hb
    simp only [List.mem_append] at hb
    rcases hb with (hb | hb) | hb
    · have : ∀ x ∈ ascii "Code(", x.toNat < 128 := by decide
      exact this b hb
    · exact fmtInt_natCast_ascii _ b hb
    · have : ∀ x ∈ ascii ")", x.toNat < 128 := by decide
      exact this b hb

/-! ## The unary interceptor -/

/-- A recording whose method, service and pod labels are valid UTF-8 returns, with one
observation and one increment at the labels and nothing else changed. -/
theorem recordGRPCRequest_some (podID method service : GoString) (c : Nat) (d : Int)
    (reg : Registry) (hm : validUTF8 method = true) (hs : validUTF8 service = true)
    (hp : validUTF8 podID = true) :
    ∃ reg2, RecordGRPCRequest podID method service (codeString c) d reg = some reg2
      ∧ (∀ l, reg2.GrpcServerHandlingSeconds l
          = if l = (method, service, podID)
            then durationSeconds d :: reg.GrpcServerHandlingSeconds l
            else reg.GrpcServerHandlingSeconds l)
      ∧ (∀ l, reg2.GrpcServerRequestsTotal l
          = if l = (method, service, podID, codeString c)
            then reg.GrpcServerRequestsTotal l + 1
            else reg.GrpcServerRequestsTotal l)
      ∧ reg2.ContainerCpuUsageSecondsTotal = reg.ContainerCpuUsageSecondsTotal
      ∧ reg2.ContainerMemoryWorkingSetBytes = reg.ContainerMemoryWorkingSetBytes := by
  have h1 : withLabelValues [method, service, podID] = some () := by
    simp [withLabelValues, hm, hs, hp]
  have h2 : withLabelValues [method, service, podID, codeString c] = some () := by
    simp [withLabelValues, hm, hs, hp, codeString_valid]
  simp only [RecordGRPCRequest, h1, h2, Option.bind_eq_bind, Option.some_bind]
  exact ⟨_, rfl, fun l => rfl, fun l => rfl, rfl, rfl⟩

/-- A recording returns only when its method, service and pod labels are valid UTF-8. -/
theorem recordGRPCRequest_valid (podID method service status : GoString) (d : Int)
    (reg reg2 : Registry)
    (h : RecordGRPCRequest podID method service status d reg = some reg2) :
    validUTF8 method = true ∧ validUTF8 service = true ∧ validUTF8 podID = true := by
  by_cases h1 : withLabelValues [method, service, podID] = some ()
  · simpa [withLabelValues] using h1
  · have hn : withLabelValues [method, service, podID] = none := by
      cases hw : withLabelValues [method, service, podID] with
      | none => rfl
      | some u => exact absurd hw h1
    simp [RecordGRPCRequest, hn] at h

/-- The interceptor after a handler that returned, reduced to the recording. -/
theorem interceptor_eq {Req Resp : Type} (podID : GoString) (ctx : Context) (req : Req)
    (info : UnaryServerInfo) (handler : UnaryHandler Req Resp) (w w1 : World)
    (out : Resp × Option GoError) (h : handler ctx req w = some (out, w1)) :
    UnaryServerInterceptor podID ctx req info handler w
      = (RecordGRPCRequest podID (parseReference info.FullMethod).2
            (parseReference info.FullMethod).1 (codeString (deriveStatus out.2))
            (w1.clock - w.clock) w1.registry).map (fun reg2 => (out, World.mk reg2 w1.clock)) := by
  unfold UnaryServerInterceptor
  simp only [h, parseFullMethod_eq_reference, Option.bind_eq_bind, Option.some_bind]
  cases RecordGRPCRequest podID (parseReference info.FullMethod).2
      (parseReference info.FullMethod).1 (codeString (deriveStatus out.2))
      (w1.clock - w.clock) w1.registry <;> rfl

/-- C4: a call completes through the interceptor exactly when the handler returned and the
method, service and pod labels are valid UTF-8; every call that completes returns the
handler's pair and changes the registry the handler left by exactly one observation (the
handling time in seconds) on `grpc_server_handling_seconds` at `(method, service, pod)` and by
`+1` on `grpc_server_requests_total` at `(method, service, pod, status)`, where
`(service, method)` is the parse of the full method and `status` is `OK` without error, the
name of the error's status code when it carries one and `Unknown` otherwise; every other
series keeps its value. -/
theorem interceptor_records_once {Req Resp : Type} (podID : GoString) (ctx : Context)
    (req : Req) (info : UnaryServerInfo) (handler : UnaryHandler Req Resp) (w w1 : World)
    (out : Resp × Option GoError) (h : handler ctx req w = some (out, w1)) :
    ∃ (service method status : GoString),
      parseFullMethod info.FullMethod = some (service, method)
      ∧ status = (match out.2 with
          | none => ascii "OK"
          | some (GoError.status code _) => codeString code
          | some (GoError.plain _) => ascii "Unknown")
      ∧ ((∃ r, UnaryServerInterceptor podID ctx req info handler w = some r)
          ↔ (validUTF8 method = true ∧ validUTF8 service = true ∧ validUTF8 podID = true))
      ∧ ∀ r, UnaryServerInterceptor podID ctx req info handler w = some r →
          r.1 = out
          ∧ r.2.clock = w1.clock
          ∧ (∀ l, r.2.registry.GrpcServerHandlingSeconds l
              = if l = (method, service, podID)
                then durationSeconds (w1.clock - w.clock)
                  :: w1.registry.GrpcServerHandlingSeconds l
                else w1.registry.GrpcServerHandlingSeconds l)
          ∧ (∀ l, r.2.registry.GrpcServerRequestsTotal l
              = if l = (method, service, podID, status)
                then w1.registry.GrpcServerRequestsTotal l + 1
                else w1.registry.GrpcServerRequestsTotal l)
          ∧ r.2.registry.ContainerCpuUsageSecondsTotal
              = w1.registry.ContainerCpuUsageSecondsTotal
          ∧ r.2.registry.ContainerMemoryWorkingSetBytes
              = w1.registry.ContainerMemoryWorkingSetBytes := by
  have hI := interceptor_eq podID ctx req info handler w w1 out h
  have hst : codeString (deriveStatus out.2) = (match out.2 with
      | none => ascii "OK"
      | some (GoError.status code _) => codeString code
      | some (GoError.plain _) => ascii "Unknown") := by
    obtain ⟨resp, err⟩ := out
    cases err with
    | none => rfl
    | some e =>
      cases e with
      | status code msg => rfl
      | plain msg => rfl
  refine ⟨(parseReference info.FullMethod).1, (parseReference info.FullMethod).2,
    codeString (deriveStatus out.2), parseFullMethod_eq_reference _, hst, ⟨?_, ?_⟩, ?_⟩
  · rintro ⟨r, hr⟩
    rw [hI] at hr
    cases hrec : RecordGRPCRequest podID (parseReference info.FullMethod).2
        (parseReference info.FullMethod).1 (codeString (deriveStatus out.2))
        (w1.clock - w.clock) w1.registry with
    | none => rw [hrec] at hr; exact absurd hr (by simp)
    | some reg2 => exact recordGRPCRequest_valid _ _ _ _ _ _ _ hrec
  · rintro ⟨hm, hs, hp⟩
    obtain ⟨reg2, hrec, _⟩ := recordGRPCRequest_some podID (parseReference info.FullMethod).2
      (parseReference info.FullMethod).1 (deriveStatus out.2) (w1.clock - w.clock) w1.registry
      hm hs hp
    exact ⟨_, by rw [hI, hrec]; rfl⟩
  · intro r hr
    rw [hI] at hr
    cases hrec : RecordGRPCRequest podID (parseReference info.FullMethod).2
        (parseReference info.FullMethod).1 (codeString (deriveStatus out.2))
        (w1.clock - w.clock) w1.registry with
    | none => rw [hrec] at hr; exact absurd hr (by simp)
    | some reg2 =>
      obtain ⟨hm, hs, hp⟩ := recordGRPCRequest_valid _ _ _ _ _ _ _ hrec
      obtain ⟨reg3, hrec3, a1, a2, a3, a4⟩ := recordGRPCRequest_some podID
        (parseReference info.FullMethod).2 (parseReference info.FullMethod).1
        (deriveStatus out.2) (w1.clock - w.clock) w1.registry hm hs hp
      rw [hrec3, Option.map_some'] at hr
      rw [← Option.some.inj hr]
      exact ⟨rfl, rfl, a1, a2, a3, a4⟩

/-- The interceptor around a handler that answers `NotFound` after 12 ms, on a fresh registry:
the call completes, the error comes back unchanged, the counter at `status="NotFound"` is 1,
the histogram holds the one observation of 12 ms and the counter at `status="OK"` stays 0. -/
theorem interceptor_records_once_witness :
    notFoundAfter12ms ⟨none⟩ () world0
      = some (((), some (GoError.status codeNotFound (ascii "missing"))),
          sleep (12 * Millisecond) world0)
    ∧ ∃ w2 : World,
      UnaryServerInterceptor (ascii "p1") ⟨none⟩ () ⟨ascii "/pkg.Y/X"⟩ notFoundAfter12ms world0
        = some (((), some (GoError.status codeNotFound (ascii "missing"))), w2)
      ∧ w2.registry.GrpcServerRequestsTotal (ascii "X", ascii "Y", ascii "p1", ascii "NotFound")
          = 1
      ∧ w2.registry.GrpcServerHandlingSeconds (ascii "X", ascii "Y", ascii "p1")
          = [durationSeconds (12 * Millisecond)]
      ∧ w2.registry.GrpcServerRequestsTotal (ascii "X", ascii "Y", ascii "p1", ascii "OK")
          = 0 := by
  obtain ⟨service, method, status, h2, h3, hiff, hall⟩ :=
    interceptor_records_once (ascii "p1") ⟨none⟩ () ⟨ascii "/pkg.Y/X"⟩ notFoundAfter12ms world0
      (sleep (12 * Millisecond) world0)
      ((), some (GoError.status codeNotFound (ascii "missing"))) rfl
  have hp : parseFullMethod (ascii "/pkg.Y/X") = some (ascii "Y", ascii "X") := by decide
  have hs : codeString codeNotFound = ascii "NotFound" := by decide
  rw [hp] at h2
  simp only [Option.some.injEq, Prod.mk.injEq] at h2
  obtain ⟨e1, e2⟩ := h2
  subst e1 e2
  simp only [hs] at h3
  subst h3
  obtain ⟨r, hr⟩ := hiff.mpr ⟨by decide, by decide, by decide⟩
  obtain ⟨b1, _, b3, b4, _, _⟩ := hall r hr
  obtain ⟨out, w2⟩ := r
  simp only at b1 b3 b4
  subst b1
  refine ⟨rfl, w2, hr, ?_, ?_, ?_⟩
  · rw [b4, if_pos rfl]
    simp [sleep, world0, Registry.empty]
  · have hc : (sleep (12 * Millisecond) world0).clock - world0.clock = 12 * Millisecond := by
      decide
    rw [b3, if_pos rfl, hc]
    rfl
  · rw [b4, if_neg (by decide)]
    simp [sleep, world0, Registry.empty]

/-! ## The request simulator -/

theorem appendSegment_some (lib : StdLib) (result : ℚ) (processed : GoString) (i : Nat) :
    ∃ p, appendSegment lib result processed i = some p ∧ p.length ≤ 1000 := by
  unfold appendSegment
  simp only
  generalize processed ++ ascii "-" ++ fmtInt (i : Int) ++ ascii "-" ++ lib.fmtFloat2 result = q
  by_cases h : q.length > 1000
  · rw [if_pos h]
    have := sliceTo_of_le q 1000 (by omega)
    refine ⟨q.take 1000, by exact_mod_cast this, ?_⟩
    simp
  · rw [if_neg h]
    exact ⟨q, rfl, by omega⟩

theorem foldlM_appendSegment_some (lib : StdLib) (result : ℚ) (l : List Nat) :
    ∀ init : GoString, ∃ p, l.foldlM (appendSegment lib result) init = some p
      ∧ (init.length ≤ 1000 ∨ l ≠ [] → p.length ≤ 1000) := by
  induction l with
  | nil =>
    intro init
    refine ⟨init, rfl, ?_⟩
    rintro (h | h)
    · exact h
    · exact absurd rfl h
  | cons i l ih =>
    intro init
    obtain ⟨p1, hp1, hlen1⟩ := appendSegment_some lib result init i
    obtain ⟨p, hp, hlen⟩ := ih p1
    refine ⟨p, ?_, fun _ => hlen (Or.inl hlen1)⟩
    simp [List.foldlM_cons, hp1, hp]

theorem clampComplexity_eq (c : Int) : clampComplexity c = max 1 (min 10 c) := by
  unfold clampComplexity
  simp only
  split_ifs <;> omega

theorem clampComplexity_bounds (c : Int) : 1 ≤ clampComplexity c ∧ clampComplexity c ≤ 10 := by
  rw [clampComplexity_eq]
  omega

theorem clampComplexity_idem (c : Int) : clampComplexity (clampComplexity c) = clampComplexity c := by
  simp only [clampComplexity_eq]
  omega

theorem buildProcessed_some (lib : StdLib) (data : GoString) (complexity : Int) (result : ℚ)
    (h : 1 ≤ complexity) :
    ∃ p, buildProcessed lib data complexity result = some p ∧ p.length ≤ 1000 := by
  unfold buildProcessed
  obtain ⟨p, hp, hlen⟩ :=
    foldlM_appendSegment_some lib result (List.range complexity.toNat) (lib.toUpper data)
  refine ⟨p, hp, hlen (Or.inr ?_)⟩
  intro hnil
  have := congrArg List.length hnil
  simp at this
  omega

theorem simulateCPUWork_some (lib : StdLib) (cfg : Config) (data : GoString) (complexity : Int)
    (h : 1 ≤ complexity) : ∃ r, simulateCPUWork lib cfg data complexity = some r := by
  obtain ⟨p, hp, _⟩ :=
    buildProcessed_some lib data complexity (cpuLoop lib (iterationCount cfg complexity)) h
  unfold simulateCPUWork
  simp [hp]

/-- C5: `ProcessData` clamps the complexity to [1,10]: for every data string, configuration,
jitter draw and requested complexity the call returns, its result string is that of
`simulateCPUWork` at `max 1 (min 10 c)`, it sleeps the delay computed from `max 1 (min 10 c)`,
and the whole outcome equals that of the request with complexity `max 1 (min 10 c)`; so 0
behaves as 1 and 42 as 10. -/
theorem ProcessData_clamps (lib : StdLib) (cfg : Config) (jitter : Int) (ctx : Context)
    (data : GoString) (w : World) :
    (∀ c : Int, ∃ result,
      simulateCPUWork lib cfg data (max 1 (min 10 c)) = some result
      ∧ ProcessData lib cfg jitter ctx ⟨data, c⟩ w
        = some ((⟨result,
            Int.tdiv ((sleep (processDataDelay lib cfg (max 1 (min 10 c)) jitter) w).clock
              - w.clock) Millisecond, cfg.PodID⟩, none),
            sleep (processDataDelay lib cfg (max 1 (min 10 c)) jitter) w)
      ∧ ProcessData lib cfg jitter ctx ⟨data, c⟩ w
        = ProcessData lib cfg jitter ctx ⟨data, max 1 (min 10 c)⟩ w)
    ∧ ProcessData lib cfg jitter ctx ⟨data, 0⟩ w = ProcessData lib cfg jitter ctx ⟨data, 1⟩ w
    ∧ ProcessData lib cfg jitter ctx ⟨data, 42⟩ w
        = ProcessData lib cfg jitter ctx ⟨data, 10⟩ w := by
  refine ⟨fun c => ?_, ?_, ?_⟩
  · obtain ⟨r, hr⟩ := simulateCPUWork_some lib cfg data (clampComplexity c)
      (clampComplexity_bounds c).1
    refine ⟨r, by rw [← clampComplexity_eq]; exact hr, ?_, ?_⟩
    · rw [← clampComplexity_eq]
      simp [ProcessData, hr]
    · have := clampComplexity_idem c
      rw [← clampComplexity_eq]
      simp only [ProcessData, this]
  · rfl
  · rfl

/-- C10: whatever the data (of any length) and the requested complexity, each pass of the
string loop returns a string of at most 1000 bytes without slicing out of bounds (the slice
`processed[:1000]` is taken only under the guard `len(processed) > 1000`), and the string
`processed` that `ProcessData` builds (the loop run for the clamped complexity) exists and has
at most 1000 bytes when the loop ends. -/
theorem processed_at_most_1000 (lib : StdLib) (cfg : Config) (data : GoString) (c : Int) :
    (∀ (result : ℚ) (processed : GoString) (i : Nat),
      ∃ p, appendSegment lib result processed i = some p ∧ p.length ≤ 1000
        ∧ (p ≠ processed ++ ascii "-" ++ fmtInt (i : Int) ++ ascii "-" ++ lib.fmtFloat2 result
            → (processed ++ ascii "-" ++ fmtInt (i : Int) ++ ascii "-"
                ++ lib.fmtFloat2 result).length > 1000))
    ∧ ∃ p, buildProcessed lib data (clampComplexity c)
          (cpuLoop lib (iterationCount cfg (clampComplexity c))) = some p
        ∧ p.length ≤ 1000 := by
  refine ⟨fun result processed i => ?_, buildProcessed_some lib data _ _
    (clampComplexity_bounds c).1⟩
  obtain ⟨p, hp, hlen⟩ := appendSegment_some lib result processed i
  refine ⟨p, hp, hlen, fun hne => ?_⟩
  by_contra hle
  apply hne
  unfold appendSegment at hp
  simp only [if_neg hle, Option.some.injEq] at hp
  exact hp.symm

/-- C6 as stated fails: with `latency_base = 20`, slow mode and the jitter draw 0,
`GetResource` sleeps 30 ms, which is less than 60 ms. -/
theorem getResource_slow_counterexample :
    getResourceDelay cfgBase20 true 0 = 30 * Millisecond
    ∧ (∀ lib : StdLib,
        (GetResource lib cfgBase20 0 ⟨none⟩ ⟨ascii "r", true⟩ world0).map
          (fun r => r.2.clock - world0.clock) = some (30 * Millisecond))
    ∧ ¬ (60 * Millisecond ≤ getResourceDelay cfgBase20 true 0) := by
  refine ⟨by decide, fun lib => ?_, by decide⟩
  have hd : getResourceDelay cfgBase20 true 0 = 30 * Millisecond := by decide
  simp only [GetResource, Option.map_some', hd]
  decide

/-- C6, amended: with `latency_base = 20` and slow mode, for every jitter draw in [0,30) the
delay that `GetResource` sleeps is at least 30 ms (three times `latency_base/2`) and less than
60 ms, and the call advances the clock by exactly that delay. -/
theorem getResource_slow_bounds (cfg : Config) (jitter : Int)
    (hbase : cfg.LatencyBase = 20) (h0 : 0 ≤ jitter) (h30 : jitter < 30) :
    30 * Millisecond ≤ getResourceDelay cfg true jitter
    ∧ getResourceDelay cfg true jitter < 60 * Millisecond
    ∧ ∀ (lib : StdLib) (ctx : Context) (resourceId : GoString) (w : World),
        (GetResource lib cfg jitter ctx ⟨resourceId, true⟩ w).map (fun r => r.2.clock - w.clock)
          = some (getResourceDelay cfg true jitter) := by
  have hd : getResourceDelay cfg true jitter = 30000000 + jitter * 1000000 := by
    simp only [getResourceDelay, hbase, wrapInt64, Millisecond, if_true]
    have e1 : Int.tdiv 20 2 = 10 := by decide
    rw [e1]
    omega
  refine ⟨by rw [hd]; simp only [Millisecond]; omega, by rw [hd]; simp only [Millisecond]; omega,
    fun lib ctx resourceId w => ?_⟩
  simp only [GetResource, Option.map_some', sleep]
  rw [hd]
  congr 1
  have : max (30000000 + jitter * 1000000) 0 = 30000000 + jitter * 1000000 := by omega
  rw [this]
  omega

/-- The slow-mode bounds at `latency_base = 20` and the jitter draw 29. -/
theorem getResource_slow_bounds_witness :
    30 * Millisecond ≤ getResourceDelay cfgBase20 true 29
    ∧ getResourceDelay cfgBase20 true 29 < 60 * Millisecond
    ∧ ∀ (lib : StdLib) (ctx : Context) (resourceId : GoString) (w : World),
        (GetResource lib cfgBase20 29 ctx ⟨resourceId, true⟩ w).map
          (fun r => r.2.clock - w.clock) = some (getResourceDelay cfgBase20 true 29) :=
  getResource_slow_bounds cfgBase20 29 rfl (by decide) (by decide)

/-- C9 at `cpu_factor = 0.5` and `1.5`: the code converts the factor to an integer before it
multiplies, so complexity 1 gives 0 iterations at factor 0.5 where
`complexity × 1000 × cpu_factor` is 500 (the loop body never runs, the result stays 1.0 and the
result string reports `iterations=0`), and 1000 iterations at factor 1.5 where it is 1500. -/
theorem iterationCount_truncates_factor :
    iterationCount cfgHalf 1 = 0
    ∧ ((1 : ℚ) * 1000 * cfgHalf.CPUFactor = 500)
    ∧ (∀ lib : StdLib, cpuLoop lib (iterationCount cfgHalf 1) = 1)
    ∧ (∀ (lib : StdLib) (data : GoString), ∃ processed,
        simulateCPUWork lib cfgHalf data 1
          = some (ascii "Processed[" ++ processed
              ++ ascii "] by pod p1 (complexity=1, iterations=0, result=" ++ lib.fmtFloat2 1
              ++ ascii ")"))
    ∧ iterationCount cfgOneAndHalf 1 = 1000
    ∧ ((1 : ℚ) * 1000 * cfgOneAndHalf.CPUFactor = 1500) := by
  have h1 : iterationCount cfgHalf 1 = 0 := by
    have hnum : ((1 : ℚ) / 2).num = 1 := by norm_num
    have hden : ((1 : ℚ) / 2).den = 2 := by norm_num
    simp only [iterationCount, cfgHalf, floatToInt, hnum, hden]
    decide
  have h2 : iterationCount cfgOneAndHalf 1 = 1000 := by
    have hnum : ((3 : ℚ) / 2).num = 3 := by norm_num
    have hden : ((3 : ℚ) / 2).den = 2 := by norm_num
    simp only [iterationCount, cfgOneAndHalf, floatToInt, hnum, hden]
    decide
  have h3 : ∀ lib : StdLib, cpuLoop lib (iterationCount cfgHalf 1) = 1 := by
    intro lib
    rw [h1]
    rfl
  refine ⟨h1, by norm_num [cfgHalf], h3, fun lib data => ?_, h2, by norm_num [cfgOneAndHalf]⟩
  obtain ⟨p, hp, _⟩ := buildProcessed_some lib data 1 (cpuLoop lib (iterationCount cfgHalf 1))
    le_rfl
  refine ⟨p, ?_⟩
  have htext : ascii "] by pod " ++ cfgHalf.PodID ++ ascii " (complexity=" ++ fmtInt 1
      ++ ascii ", iterations=" ++ fmtInt 0 ++ ascii ", result="
      = ascii "] by pod p1 (complexity=1, iterations=0, result=" := by decide
  have h0 : cpuLoop lib 0 = 1 := rfl
  rw [h1, h0] at hp
  simp only [simulateCPUWork, h1, h0, hp, Option.bind_eq_bind, Option.some_bind]
  rw [← htext]
  simp only [List.append_assoc]

/-! ## Cancellation -/

/-- C8 as stated fails: a context cancelled 1 ms into the 10 ms sleep of `GetResource`
(`latency_base = 20`, jitter draw 0) changes nothing: the handler sleeps the 10 ms through and
returns a response with the nil error. -/
theorem getResource_cancelled_counterexample :
    (0 < 1 * Millisecond ∧ 1 * Millisecond < getResourceDelay cfgBase20 false 0)
    ∧ ∀ lib : StdLib,
        (GetResource lib cfgBase20 0 ⟨some (1 * Millisecond)⟩ ⟨ascii "r", false⟩ world0).map
          (fun r => (r.1.2, r.2.clock - world0.clock)) = some (none, 10 * Millisecond) := by
  refine ⟨by decide, fun lib => ?_⟩
  have hd : getResourceDelay cfgBase20 false 0 = 10 * Millisecond := by decide
  simp only [GetResource, Option.map_some', hd]
  decide

/-- C8, amended: the handlers do not look at the caller's context. Whatever the context,
cancelled or not, `ProcessData` and `GetResource` sleep the whole computed delay and return a
response with the nil error, `HealthCheck` returns `SERVING` with the nil error without
sleeping, and each outcome is the same under any other context. -/
theorem handlers_ignore_context (lib : StdLib) (cfg : Config) (jitter : Int)
    (ctx ctx2 : Context) (w : World) (pd : ProcessDataRequest) (gr : GetResourceRequest) :
    (∃ resp, ProcessData lib cfg jitter ctx pd w
        = some ((resp, none),
            sleep (processDataDelay lib cfg (clampComplexity pd.Complexity) jitter) w))
    ∧ (∃ resp, GetResource lib cfg jitter ctx gr w
        = some ((resp, none), sleep (getResourceDelay cfg gr.SimulateSlowOperation jitter) w))
    ∧ HealthCheck cfg ctx () w = some ((⟨ServingStatus.SERVING, cfg.PodID⟩, none), w)
    ∧ ProcessData lib cfg jitter ctx pd w = ProcessData lib cfg jitter ctx2 pd w
    ∧ GetResource lib cfg jitter ctx gr w = GetResource lib cfg jitter ctx2 gr w
    ∧ HealthCheck cfg ctx () w = HealthCheck cfg ctx2 () w := by
  refine ⟨?_, ⟨_, rfl⟩, rfl, rfl, rfl, rfl⟩
  obtain ⟨r, hr⟩ := simulateCPUWork_some lib cfg pd.Data (clampComplexity pd.Complexity)
    (clampComplexity_bounds pd.Complexity).1
  exact ⟨_, by simp only [ProcessData, hr]; rfl⟩

/-! ## Rounding to `float64` -/

end Backend
